import Mathlib

/-!
Verification of the AI PR-reviewer script (`src/ai-reviewer/ai_reviewer.py`)
against its natural-language specification.

The Python source is shallowly embedded below.  Python strings are Lean
`String`s (character-level, matching Python's code-point semantics), Python
`None`-able strings are `Option String`, Python sets of line numbers are
`Finset Int` (Python `int` is unbounded), JSON values decoded by `json.loads`
are the inductive `JsonVal`, and Python exceptions are the inductive `PyExc`
threaded through `Except`.
-/

namespace AiReviewer

/-- A decoded JSON value, the result type of `json.loads`.  JSON numbers are
modelled as integers only: fractional/exponent literals are not modelled (the
embedded parser fails on them; no property below depends on float values). -/
inductive JsonVal where
  | null
  | bool (b : Bool)
  | num (n : Int)
  | str (s : String)
  | arr (xs : List JsonVal)
  | obj (kvs : List (String × JsonVal))

/-- The Python exception classes that the embedded code can raise.
`systemExit` (raised by `exit(1)`) is the one class here that is *not* a
subclass of `Exception`, so a bare `except Exception` does not catch it. -/
inductive PyExc where
  | jsonDecodeError
  | valueError
  | typeError
  | keyError
  | systemExit
deriving DecidableEq, Repr

/-- Whether a Python `except Exception` clause catches the raised class. -/
def PyExc.isExceptionClass : PyExc → Bool
  | .systemExit => false
  | _ => true

/-- One inline review comment dict `{"path": .., "line": .., "body": ..}`
appended to `comments` in `analyze_file`. -/
structure Comment where
  path : String
  line : Int
  body : String
deriving DecidableEq, Repr

/-! ## Diff Line Mapper: `get_valid_lines` (lines 35–58)

The Python function iterates over `patch.split('\n')`; we model a line as a
`List Char` and `split('\n')` as `splitLines` below, so that the per-line
prefix tests (`line.startswith(...)`) become head-pattern tests. -/

/-- `s.split('\n')` on the character list of `s`: always returns at least one
(possibly empty) line, exactly like Python `str.split` with an explicit
separator. -/
def splitLines : List Char → List (List Char)
  | [] => [[]]
  | c :: rest =>
    if c = '\n' then [] :: splitLines rest
    else
      match splitLines rest with
      | l :: ls => (c :: l) :: ls
      | [] => [[c]]

/-- `line.startswith('@@')`. -/
def isHunkHeader : List Char → Bool
  | '@' :: '@' :: _ => true
  | _ => false

/-- `line.startswith(c)` for a single-character prefix. -/
def headIs (c : Char) : List Char → Bool
  | x :: _ => x = c
  | [] => false

/-- Maximal leading run of decimal digits, with the rest of the input. -/
def takeDigits : List Char → List Char × List Char
  | [] => ([], [])
  | c :: rest =>
    if c.isDigit then
      let (ds, r) := takeDigits rest
      (c :: ds, r)
    else ([], c :: rest)

/-- Decimal value of a digit list (`int(match.group(1))`). -/
def digitsToNat (ds : List Char) : Nat :=
  ds.foldl (fun acc c => 10 * acc + (c.toNat - '0'.toNat)) 0

/-- `re.search(r'\+(\d+)', line)`: the digits after the leftmost `'+'` that is
immediately followed by at least one digit, if any. -/
def findPlusNum : List Char → Option Nat
  | [] => none
  | c :: rest =>
    if c = '+' then
      match takeDigits rest with
      | ([], _) => findPlusNum rest
      | (ds, _) => some (digitsToNat ds)
    else findPlusNum rest

/-- The line-scanning loop of `get_valid_lines` (lines 45–57): a hunk header
with a parsable `+<digits>` resets the cursor; a context (`' '`) or added
(`'+'`) line adds the cursor to the set and advances it; every other line
(including `'-'` removed lines) is skipped with the cursor untouched. -/
def gvlAux : List (List Char) → Int → Finset Int → Finset Int
  | [], _, acc => acc
  | l :: rest, cur, acc =>
    if isHunkHeader l then
      match findPlusNum l with
      | some n => gvlAux rest (Int.ofNat n) acc
      | none => gvlAux rest cur acc
    else if headIs ' ' l || headIs '+' l then
      gvlAux rest (cur + 1) (insert cur acc)
    else gvlAux rest cur acc

/-- `get_valid_lines(patch)` (lines 35–58).  `patch` is `str | None`; the
guard `if not patch` returns the empty set for `None` and for `""`. -/
def get_valid_lines (patch : Option String) : Finset Int :=
  match patch with
  | none => ∅
  | some p => if p = "" then ∅ else gvlAux (splitLines p.data) 0 ∅

/-- The hunk header `@@ -a,b +c,d @@` as a character list, with each of the
four numbers given by its digit string. -/
def hunkHeader (as bs cs ds : List Char) : List Char :=
  '@' :: '@' :: ' ' :: '-' :: (as ++ ',' :: (bs ++ ' ' :: '+' :: (cs ++ ',' :: (ds ++ [' ', '@', '@']))))

/-- Instrumented rerun of the same scan, recording each context/added line
together with the line number the scan assigns to it. -/
def taggedLines : List (List Char) → Int → List (List Char × Int)
  | [], _ => []
  | l :: rest, cur =>
    if isHunkHeader l then
      match findPlusNum l with
      | some n => taggedLines rest (Int.ofNat n)
      | none => taggedLines rest cur
    else if headIs ' ' l || headIs '+' l then
      (l, cur) :: taggedLines rest (cur + 1)
    else taggedLines rest cur

lemma mem_gvlAux (ls : List (List Char)) :
    ∀ (cur : Int) (acc : Finset Int) (n : Int),
      n ∈ gvlAux ls cur acc ↔ n ∈ acc ∨ ∃ p ∈ taggedLines ls cur, p.2 = n := by
  induction ls with
  | nil => intro cur acc n; simp [gvlAux, taggedLines]
  | cons l rest ih =>
    intro cur acc n
    by_cases hh : isHunkHeader l
    · cases hf : findPlusNum l with
      | some m => simp [gvlAux, taggedLines, hh, hf, ih]
      | none => simp [gvlAux, taggedLines, hh, hf, ih]
    · by_cases hsp : headIs ' ' l || headIs '+' l
      · simp only [gvlAux, taggedLines, hh, hsp, if_true, if_false, Bool.false_eq_true]
        rw [ih]
        simp only [Finset.mem_insert, List.mem_cons]
        constructor
        · rintro (⟨h | h⟩ | ⟨p, hp, hpn⟩)
          · exact Or.inr ⟨(l, cur), Or.inl rfl, h.symm⟩
          · exact Or.inl h
          · exact Or.inr ⟨p, Or.inr hp, hpn⟩
        · rintro (h | ⟨p, hp | hp, hpn⟩)
          · exact Or.inl (Or.inr h)
          · exact Or.inl (Or.inl (by rw [hp] at hpn; exact hpn.symm))
          · exact Or.inr ⟨p, hp, hpn⟩
      · simp [gvlAux, taggedLines, hh, hsp, ih]

lemma taggedLines_context_or_added (ls : List (List Char)) :
    ∀ (cur : Int), ∀ p ∈ taggedLines ls cur,
      p.1 ∈ ls ∧ (headIs ' ' p.1 = true ∨ headIs '+' p.1 = true) := by
  induction ls with
  | nil => intro cur p hp; simp [taggedLines] at hp
  | cons l rest ih =>
    intro cur p hp
    by_cases hh : isHunkHeader l
    · cases hf : findPlusNum l with
      | some m =>
        simp only [taggedLines, hh, hf, if_true] at hp
        rcases ih _ p hp with ⟨h1, h2⟩
        exact ⟨List.mem_cons_of_mem _ h1, h2⟩
      | none =>
        simp only [taggedLines, hh, hf, if_true] at hp
        rcases ih _ p hp with ⟨h1, h2⟩
        exact ⟨List.mem_cons_of_mem _ h1, h2⟩
    · by_cases hsp : headIs ' ' l || headIs '+' l
      · simp only [taggedLines, hh, hsp, if_true, if_false, Bool.false_eq_true,
          List.mem_cons] at hp
        rcases hp with hp | hp
        · subst hp
          refine ⟨List.mem_cons_self _ _, ?_⟩
          rcases Bool.or_eq_true_iff.mp hsp with h | h
          · exact Or.inl h
          · exact Or.inr h
        · rcases ih _ p hp with ⟨h1, h2⟩
          exact ⟨List.mem_cons_of_mem _ h1, h2⟩
      · simp only [taggedLines, hh, hsp, if_false, Bool.false_eq_true] at hp
        rcases ih _ p hp with ⟨h1, h2⟩
        exact ⟨List.mem_cons_of_mem _ h1, h2⟩

/-! ## `clean_json_text` (lines 60–69) -/

/-- The whitespace `str.strip()` removes (the ASCII subset; Python also
strips rarer Unicode space characters, immaterial to every property below). -/
def pyWs (c : Char) : Bool :=
  c = ' ' || c = '\t' || c = '\n' || c = '\r' || c = Char.ofNat 11 || c = Char.ofNat 12

/-- `s.strip()` on a character list. -/
def stripChars (l : List Char) : List Char :=
  ((l.dropWhile pyWs).reverse.dropWhile pyWs).reverse

/-- `clean_json_text(text)` (lines 60–69): strip, peel a leading
`\x60\x60\x60json` (7 chars) or `\x60\x60\x60` (3 chars) fence and a trailing
fence, strip again.  `text[7:]` / `text[:-3]` are character slices. -/
def clean_json_text (text : String) : String :=
  let t := stripChars text.data
  let t := if ("```json".data).isPrefixOf t then t.drop 7 else t
  let t := if ("```".data).isPrefixOf t then t.drop 3 else t
  let t := if ("```".data.reverse).isPrefixOf t.reverse then (t.reverse.drop 3).reverse else t
  String.mk (stripChars t)

/-! ## `json.loads` (invoked at line 142)

A recursive-descent JSON parser over character lists, fuel-indexed so that
every definition is structural and kernel-reducible.  Modelled per RFC 8259 as
`json.loads` implements it, with two declared simplifications: numbers are
integers only (a fractional or exponent part makes the parse fail rather than
produce a float), and `\u` escapes map through `Char.ofNat` without surrogate
pairing.  No claim below depends on either corner. -/

/-- JSON insignificant whitespace (exactly the four characters `json` skips). -/
def skipWs : List Char → List Char
  | c :: cs => if c = ' ' || c = '\t' || c = '\n' || c = '\r' then skipWs cs else c :: cs
  | [] => []

/-- Hex digit value, if any. -/
def hexVal (c : Char) : Option Nat :=
  if '0' ≤ c ∧ c ≤ '9' then some (c.toNat - '0'.toNat)
  else if 'a' ≤ c ∧ c ≤ 'f' then some (c.toNat - 'a'.toNat + 10)
  else if 'A' ≤ c ∧ c ≤ 'F' then some (c.toNat - 'A'.toNat + 10)
  else none

/-- Body of a JSON string after the opening quote: strict mode, so raw
control characters below U+0020 are rejected, and only the escapes of the
JSON grammar are accepted. -/
def parseStrBody : List Char → Option (String × List Char)
  | [] => none
  | '"' :: rest => some ("", rest)
  | '\\' :: e :: rest =>
    if e = 'u' then
      match rest with
      | h1 :: h2 :: h3 :: h4 :: rest2 =>
        match hexVal h1, hexVal h2, hexVal h3, hexVal h4 with
        | some a, some b, some c, some d =>
          (parseStrBody rest2).map fun (s, r) =>
            ((String.singleton (Char.ofNat (((a * 16 + b) * 16 + c) * 16 + d))) ++ s, r)
        | _, _, _, _ => none
      | _ => none
    else
      (match e with
        | '"' => some '"'
        | '\\' => some '\\'
        | '/' => some '/'
        | 'b' => some (Char.ofNat 8)
        | 'f' => some (Char.ofNat 12)
        | 'n' => some '\n'
        | 'r' => some '\r'
        | 't' => some '\t'
        | _ => none).bind fun ch =>
        (parseStrBody rest).map fun (s, r) => (String.singleton ch ++ s, r)
  | c :: rest =>
    if c.toNat < 32 then none
    else (parseStrBody rest).map fun (s, r) => (String.singleton c ++ s, r)

/-- A JSON number token at the head of the input (integers only; a following
`.`/`e`/`E` means a float literal, which this model rejects).  Leading zeros
follow the JSON grammar: after `0` no further digit may belong to the token. -/
def parseNum : List Char → Option (Int × List Char)
  | cs =>
    let (neg, cs') := match cs with
      | '-' :: rest => (true, rest)
      | _ => (false, cs)
    match cs' with
    | c :: rest =>
      if ¬ c.isDigit then none
      else
        let (ds, r) := if c = '0' then (([] : List Char), rest) else takeDigits rest
        match r with
        | e :: _ =>
          if e = '.' ∨ e = 'e' ∨ e = 'E' then none
          else some ((if neg then -(digitsToNat (c :: ds) : Int) else (digitsToNat (c :: ds) : Int)), r)
        | [] => some ((if neg then -(digitsToNat (c :: ds) : Int) else (digitsToNat (c :: ds) : Int)), r)
    | [] => none

/-- Python `dict` insertion during object decoding: a repeated key overwrites
the stored value in place, keeping first-insertion order. -/
def setKV (k : String) (v : JsonVal) : List (String × JsonVal) → List (String × JsonVal)
  | [] => [(k, v)]
  | (k', v') :: rest => if k' = k then (k, v) :: rest else (k', v') :: setKV k v rest

/-- Array-element loop: parses `elem (',' elem)* ']'` using the supplied
element parser, which is the recursive call one fuel level down. -/
def arrLoop (pv : List Char → Option (JsonVal × List Char)) :
    Nat → List Char → List JsonVal → Option (List JsonVal × List Char)
  | 0, _, _ => none
  | fuel + 1, cs, acc =>
    match pv cs with
    | none => none
    | some (v, rest) =>
      match skipWs rest with
      | ',' :: r2 => arrLoop pv fuel r2 (acc ++ [v])
      | ']' :: r2 => some (acc ++ [v], r2)
      | _ => none

/-- Object-member loop: parses `"key" ':' value (',' ...)* '}'`. -/
def objLoop (pv : List Char → Option (JsonVal × List Char)) :
    Nat → List Char → List (String × JsonVal) → Option (List (String × JsonVal) × List Char)
  | 0, _, _ => none
  | fuel + 1, cs, acc =>
    match skipWs cs with
    | '"' :: rest =>
      match parseStrBody rest with
      | none => none
      | some (k, r1) =>
        match skipWs r1 with
        | ':' :: r2 =>
          match pv r2 with
          | none => none
          | some (v, r3) =>
            match skipWs r3 with
            | ',' :: r4 => objLoop pv fuel r4 (setKV k v acc)
            | '}' :: r4 => some (setKV k v acc, r4)
            | _ => none
        | _ => none
    | _ => none

/-- One JSON value at the head of the input (fuel-indexed). -/
def jsonP : Nat → List Char → Option (JsonVal × List Char)
  | 0, _ => none
  | fuel + 1, cs =>
    match skipWs cs with
    | 'n' :: 'u' :: 'l' :: 'l' :: rest => some (.null, rest)
    | 't' :: 'r' :: 'u' :: 'e' :: rest => some (.bool true, rest)
    | 'f' :: 'a' :: 'l' :: 's' :: 'e' :: rest => some (.bool false, rest)
    | '"' :: rest => (parseStrBody rest).map fun (s, r) => (.str s, r)
    | '[' :: rest =>
      (match skipWs rest with
        | ']' :: r => some (.arr [], r)
        | _ => (arrLoop (jsonP fuel) fuel rest []).map fun (xs, r) => (.arr xs, r))
    | '{' :: rest =>
      (match skipWs rest with
        | '}' :: r => some (.obj [], r)
        | _ => (objLoop (jsonP fuel) fuel rest []).map fun (kvs, r) => (.obj kvs, r))
    | cs' => (parseNum cs').map fun (n, r) => (.num n, r)

/-- `json.loads(s)`: parse one value and require only whitespace after it;
`none` models a raised `json.JSONDecodeError`. -/
def jsonLoads (s : String) : Option JsonVal :=
  match jsonP (s.length + 8) s.data with
  | some (v, rest) => if skipWs rest = [] then some v else none
  | none => none

/-- `json.loads` in the exception model: the only exception it raises on a
string argument is `JSONDecodeError`. -/
def loadsE (s : String) : Except PyExc JsonVal :=
  match jsonLoads s with
  | some v => .ok v
  | none => .error .jsonDecodeError

/-! ## Python value operations used by the validator loop (lines 145–168) -/

/-- Assoc lookup in a decoded JSON object (keys are unique: `setKV` above). -/
def pyLookup (kvs : List (String × JsonVal)) (k : String) : Option JsonVal :=
  match kvs with
  | [] => none
  | (k', v) :: rest => if k' = k then some v else pyLookup rest k

/-- Python `key in item` for a string key: dict key membership, substring
test on strings, element equality on lists, `TypeError` on the rest. -/
def pyContains (k : String) : JsonVal → Except PyExc Bool
  | .obj kvs => .ok (pyLookup kvs k).isSome
  | .str s => .ok (decide (k.data <:+: s.data))
  | .arr xs => .ok (xs.any fun v => match v with | .str s => s = k | _ => false)
  | _ => .error .typeError

/-- Python `item[k]` for a string key: dict indexing (`KeyError` when
missing), `TypeError` on strings and lists (a string index), `TypeError`
on non-subscriptables. -/
def pyIndex (item : JsonVal) (k : String) : Except PyExc JsonVal :=
  match item with
  | .obj kvs =>
    match pyLookup kvs k with
    | some v => .ok v
    | none => .error .keyError
  | _ => .error .typeError

/-- Python `item.get(k)` / `item.get(k, d)` without the default: only ever
reached on dict items in the embedded code path. -/
def pyGetOpt (item : JsonVal) (k : String) : Option JsonVal :=
  match item with
  | .obj kvs => pyLookup kvs k
  | _ => none

/-- Python decimal integer literal accepted by `int(str)`: optional
surrounding whitespace, optional sign, one or more digits (digit-group
underscores are not modelled). -/
def parsePyIntStr (s : String) : Option Int :=
  let t := stripChars s.data
  let (neg, t) := match t with
    | '-' :: rest => (true, rest)
    | '+' :: rest => (false, rest)
    | _ => (false, t)
  match t with
  | [] => none
  | _ =>
    if t.all Char.isDigit then
      some (if neg then -(digitsToNat t : Int) else (digitsToNat t : Int))
    else none

/-- Python `int(x)` on a decoded JSON value: identity on ints, 1/0 on bools,
string parsing with `ValueError` on failure, `TypeError` on `None`, lists
and dicts. -/
def pyInt : JsonVal → Except PyExc Int
  | .num n => .ok n
  | .bool b => .ok (if b then 1 else 0)
  | .str s =>
    match parsePyIntStr s with
    | some n => .ok n
    | none => .error .valueError
  | _ => .error .typeError

/-- Python `repr` of a decoded JSON value (used by `str` on lists/dicts;
string escaping inside `repr` is not modelled — no property depends on it). -/
def pyRepr : JsonVal → String
  | .null => "None"
  | .bool true => "True"
  | .bool false => "False"
  | .num n => toString n
  | .str s => "'" ++ s ++ "'"
  | .arr xs =>
    "[" ++ String.intercalate ", " (xs.attach.map fun x => pyRepr x.1) ++ "]"
  | .obj kvs =>
    "\x7b" ++
      String.intercalate ", "
        (kvs.attach.map fun kv => "'" ++ kv.1.1 ++ "': " ++ pyRepr kv.1.2) ++ "\x7d"
decreasing_by
  · have := List.sizeOf_lt_of_mem x.2
    simp only [JsonVal.arr.sizeOf_spec]
    omega
  · have h1 := List.sizeOf_lt_of_mem kv.2
    have h2 : sizeOf kv.1.2 < sizeOf kv.1 := by
      obtain ⟨⟨a, b⟩, hm⟩ := kv
      simp
    simp only [JsonVal.obj.sizeOf_spec]
    omega

/-- Python `str(x)` as the f-string at line 162 applies it. -/
def pyToStr (v : JsonVal) : String :=
  match v with
  | .str s => s
  | .num n => toString n
  | .bool true => "True"
  | .bool false => "False"
  | .null => "None"
  | .arr xs => pyRepr (.arr xs)
  | .obj kvs => pyRepr (.obj kvs)

/-! ## The validator loop body (lines 145–168) -/

/-- One iteration of the `for item in data` loop: `.ok none` is `continue`,
`.ok (some c)` appends an inline comment, `.error e` is an uncaught exception
leaving the loop.  The only `try/except` inside the loop catches exactly
`ValueError` around `int(item['line'])`. -/
def processItem (fname : String) (valid : Finset Int) (item : JsonVal) :
    Except PyExc (Option Comment) :=
  match pyContains "line" item with
  | .error e => .error e
  | .ok false => .ok none
  | .ok true =>
  match pyContains "message" item with
  | .error e => .error e
  | .ok false => .ok none
  | .ok true =>
  match pyIndex item "line" with
  | .error e => .error e
  | .ok lv =>
  match pyInt lv with
  | .error .valueError => .ok none
  | .error e => .error e
  | .ok line_num =>
  if line_num ∈ valid then
    match pyIndex item "message" with
    | .error e => .error e
    | .ok mv =>
      let icon := match pyGetOpt item "category" with
        | some (.str s) => if s = "이슈" then "⚠️" else "💡"
        | _ => "💡"
      let severity := (pyGetOpt item "severity").getD (.str "Minor")
      let severity_icon := match severity with
        | .str s => if s = "Critical" then "🔥" else if s = "Major" then "🔴" else "🟡"
        | _ => "🟡"
      let catVal := (pyGetOpt item "category").getD (.str "리뷰")
      let body := "### " ++ icon ++ " " ++ pyToStr catVal ++ " | " ++ severity_icon ++
        " " ++ pyToStr severity ++ "\n\n" ++ pyToStr mv
      .ok (some ⟨fname, line_num, body⟩)
  else .ok none

/-- The comment body rendered by lines 157–162 for a dict item, written over
the item's key-value list (for a dict, `item.get` is `pyLookup`): icon from
the category test against `'이슈'`, severity value defaulted to `'Minor'`
only when absent, severity icon from the comparisons against `'Critical'`
and `'Major'`, category rendered with default `'리뷰'` only when absent. -/
def renderBody (kvs : List (String × JsonVal)) (mv : JsonVal) : String :=
  let icon := match pyLookup kvs "category" with
    | some (.str s) => if s = "이슈" then "⚠️" else "💡"
    | _ => "💡"
  let severity := (pyLookup kvs "severity").getD (.str "Minor")
  let severity_icon := match severity with
    | .str s => if s = "Critical" then "🔥" else if s = "Major" then "🔴" else "🟡"
    | _ => "🟡"
  let catVal := (pyLookup kvs "category").getD (.str "리뷰")
  "### " ++ icon ++ " " ++ pyToStr catVal ++ " | " ++ severity_icon ++ " " ++
    pyToStr severity ++ "\n\n" ++ pyToStr mv

/-- The whole `for item in data` loop: returns the comments appended before
the loop ended, and the exception that ended it early, if any.  (In the
source `comments` is a local mutated in place, so comments appended before an
uncaught exception survive into the `except` handlers.) -/
def processItemsE (fname : String) (valid : Finset Int) :
    List JsonVal → List Comment × Option PyExc
  | [] => ([], none)
  | item :: rest =>
    match processItem fname valid item with
    | .error e => ([], some e)
    | .ok none => processItemsE fname valid rest
    | .ok (some c) =>
      let r := processItemsE fname valid rest
      (c :: r.1, r.2)

/-- Python `for item in data` evaluation of the iterable itself: lists
iterate over elements, strings over their characters, dicts over their keys;
everything else raises `TypeError`. -/
def pyIterTop : JsonVal → Except PyExc (List JsonVal)
  | .arr xs => .ok xs
  | .str s => .ok (s.data.map fun c => .str (String.singleton c))
  | .obj kvs => .ok (kvs.map fun kv => .str kv.1)
  | _ => .error .typeError

/-- The two `except` clauses at lines 170–173: `except json.JSONDecodeError`
then `except Exception`.  Both resolve to the comments accumulated so far; an
exception class outside `Exception` (only `SystemExit` here) would propagate. -/
def pyExcHandlers (e : PyExc) (acc : List Comment) : Except PyExc (List Comment) :=
  match e with
  | .jsonDecodeError => .ok acc
  | e => if e.isExceptionClass then .ok acc else .error e

/-- The parse-and-validate section of `analyze_file` (lines 139–175): clean
the raw model text, `json.loads` it, wrap a bare dict into a one-element
list, run the item loop, with the two `except` clauses around everything.
The `Except` result records whether an exception escapes the function. -/
def analyzeValidateE (fname text : String) (valid : Finset Int) :
    Except PyExc (List Comment) :=
  match loadsE (clean_json_text text) with
  | .error e => pyExcHandlers e []
  | .ok data =>
    let data := match data with
      | .obj kvs => JsonVal.arr [.obj kvs]
      | d => d
    match pyIterTop data with
    | .error e => pyExcHandlers e []
    | .ok items =>
      match processItemsE fname valid items with
      | (acc, none) => .ok acc
      | (acc, some e) => pyExcHandlers e acc

/-! ## `Config.validate` (lines 23–30)

The process environment is a partial map from variable names to strings.
`os.getenv(k, d)` defaults only when the variable is unset; a variable set to
the empty string yields `""`, which is falsy under `not`. -/

/-- `Config.validate()`: `some 1` models `exit(1)` (a raised `SystemExit(1)`),
`none` models falling through.  `LLM_BASE_URL` and `LLM_MODEL` are read with
the non-empty defaults of lines 13–14; `PR_NUMBER` with no default. -/
def configValidate (env : String → Option String) : Option Nat :=
  let base_url := (env "LLM_BASE_URL").getD "http://localhost:11434/v1"
  let model := (env "LLM_MODEL").getD "qwen2.5-coder:7b"
  if base_url = "" ∨ model = "" then some 1
  else
    match env "PR_NUMBER" with
    | none => some 1
    | some pr => if pr = "" then some 1 else none

/-! ## `analyze_file` (lines 93–136, 175) and the collect loop of `main`
(lines 281–289)

The model collaborator's answer for the file is a parameter: `none` models
`call_llm` returning `None` (its `except` path), `some t` a returned,
already-stripped text. -/

/-- One changed file as served by the hosting API. -/
structure ChangedFile where
  filename : String
  status : String
  patch : Option String

/-- `Config.IGNORED_EXTENSIONS` (line 21). -/
def IGNORED_EXTENSIONS : List String :=
  [".png", ".jpg", ".jpeg", ".svg", ".json", ".lock", ".pbxproj", ".xib", ".storyboard"]

/-- The `any(file.filename.endswith(ext) ...)` filter at line 99. -/
def isIgnoredFile (f : ChangedFile) : Bool :=
  IGNORED_EXTENSIONS.any fun ext => (ext.data.reverse).isPrefixOf f.filename.data.reverse

/-- `analyze_file(client, file)` with the model response abstracted: returns
the `(comments, patch-contribution)` pair, or the escaping exception (the
proofs below show none escapes). -/
def analyzeFile (file : ChangedFile) (response : Option String) :
    Except PyExc (List Comment × Option String) :=
  if file.status = "removed" ∨ file.patch = none then .ok ([], none)
  else if isIgnoredFile file then .ok ([], none)
  else
    match file.patch with
    | none => .ok ([], none)
    | some p =>
      let valid := get_valid_lines (some p)
      match response with
      | none => .ok ([], some p)
      | some t =>
        if t = "" then .ok ([], some p)
        else
          match analyzeValidateE file.filename t valid with
          | .error e => .error e
          | .ok comments => .ok (comments, some p)

/-- One iteration of the collect loop in `main` (lines 281–289) acting on the
diff-context buffer: a truthy (non-`None`, non-empty) returned patch is
appended with its file-boundary header while the buffer is under the
30000-character cap. -/
def collectContext (ctx : String) (file : ChangedFile)
    (result : List Comment × Option String) : String :=
  match result.2 with
  | some p =>
    if p ≠ "" ∧ ctx.length < 30000 then
      ctx ++ "\n\n--- File: " ++ file.filename ++ " ---\n" ++ p
    else ctx
  | none => ctx

/-! ## Description Merger: `update_pr_description` (lines 214–228)

In the source both sentinel markers are the empty string:
`marker_start = ""` and `marker_end = ""`.  Therefore
`marker_start in current_body` is true for every body, the replace branch is
always taken, and the compiled pattern
`re.escape('') + '.*?' + re.escape('')` is the empty-preferring `.*?` with
`re.DOTALL`.  Under Python ≥ 3.7 matching rules, `pattern.sub(repl, s)`
then finds `2*len(s)+1` matches — the empty match before each character, the
single character itself (an empty match is not allowed at the position where
the previous empty match ended, so the minimal non-empty match, one
character, is taken), and the final empty match — and replaces every one of
them, producing `repl` repeated `2*len(s)+1` times with none of `s` left.
(Checked against CPython 3.11: `re.sub(re.compile('.*?', re.DOTALL), 'S',
'abc')` evaluates to `'SSSSSSS'`.)  `subEmptyInfix` realises exactly that
match sequence.  The model below treats the replacement text literally;
faithful whenever the new section contains no backslash, which holds for
every input used in the theorems. -/

/-- `re.compile('.*?', re.DOTALL).sub(repl, s)`: the empty match at position
0 is replaced, then each character is itself a (minimal non-empty) match and
is replaced, each followed by a replaced empty match. -/
def subEmptyInfix (repl : String) (s : String) : String :=
  s.data.foldl (fun acc _ => acc ++ repl ++ repl) repl

/-- The body-merging step of `update_pr_description` (lines 214–228), after
`new_section` has been rendered: both markers are `""`, so the membership
test `'' in current_body and '' in current_body` is true for every body and
the substitution branch runs. -/
def mergePrBody (current_body : String) (new_section : String) : String :=
  let marker_start := ""
  let marker_end := ""
  if marker_start.data <:+: current_body.data ∧ marker_end.data <:+: current_body.data then
    subEmptyInfix new_section current_body
  else new_section ++ "\n\n" ++ current_body

/-- `new_section` as rendered at line 219 (markers empty). -/
def renderNewSection (model summary_text : String) : String :=
  "" ++ "\n## 🤖 AI 요약 (" ++ model ++ ")\n\n" ++ summary_text ++ "\n" ++ ""

/-! ## Claim theorems -/

/-- C1: the spec requires the Description Merger to be idempotent, and the
code's own comment (line 221) says it replaces an existing AI summary or
prepends a new one.  Because both sentinel markers are the empty string, the
substitution branch always runs and a second merge multiplies the section
again instead of leaving the document fixed: merging the section `"S"` into
the empty document once gives `"S"`, merging it again gives `"SSS"`.  This
evaluates the code at the failing input of the `code_bug` verdict. -/
theorem c1_description_merger_not_idempotent :
    mergePrBody "" "S" = "S" ∧
    mergePrBody (mergePrBody "" "S") "S" = "SSS" ∧
    mergePrBody (mergePrBody "" "S") "S" ≠ mergePrBody "" "S" := by
  refine ⟨rfl, rfl, ?_⟩
  decide

/-- C2: the spec requires all document text outside the marker-delimited
region to be preserved byte-for-byte, and in the no-marker case the output
`newSection + blank line + originalDocument`.  With the empty markers of the
source the no-marker branch is unreachable and the substitution deletes every
character of the document: merging section `"S"` into document `"A"` yields
`"SSS"` — not `"S\n\nA"`, and the original `"A"` does not survive anywhere in
the output.  This evaluates the code at the failing input of the `code_bug`
verdict. -/
theorem c2_description_merger_destroys_document :
    mergePrBody "A" "S" = "SSS" ∧
    mergePrBody "A" "S" ≠ "S" ++ "\n\n" ++ "A" ∧
    ¬ ("A".data <:+: (mergePrBody "A" "S").data) := by
  refine ⟨rfl, by decide, by decide⟩

/-- C9 counterexample: an environment that sets `LLM_BASE_URL` to the empty
string while `PR_NUMBER` is present and non-empty still makes the
configuration check exit with status 1, so the check does not exit non-zero
*only* when the PR number is missing. -/
theorem c9_counterexample_empty_base_url_exits :
    configValidate
        (fun k => if k = "LLM_BASE_URL" then some "" else
          if k = "PR_NUMBER" then some "7" else none) = some 1 ∧
    (fun k => if k = "LLM_BASE_URL" then some "" else
      if k = "PR_NUMBER" then some "7" else none) "PR_NUMBER" = some "7" ∧
    ("7" : String) ≠ "" := by
  refine ⟨rfl, rfl, by decide⟩

/-- C9 amended: the check exits (always with status 1) exactly when the PR
number is unset or set to the empty string, or when `LLM_BASE_URL` or
`LLM_MODEL` is explicitly set to the empty string; since both of the latter
default to non-empty values, in every environment that leaves them unset and
provides a non-empty PR number the check does not exit. -/
theorem c9_exit_condition_amended (env : String → Option String) :
    (configValidate env = some 1 ↔
      (env "PR_NUMBER" = none ∨ env "PR_NUMBER" = some "" ∨
        env "LLM_BASE_URL" = some "" ∨ env "LLM_MODEL" = some "")) ∧
    (configValidate env = none ∨ configValidate env = some 1) := by
  unfold configValidate
  cases hb : env "LLM_BASE_URL" with
  | none =>
    cases hm : env "LLM_MODEL" with
    | none =>
      simp only [Option.getD]
      cases hp : env "PR_NUMBER" with
      | none => simp
      | some pr =>
        by_cases hpe : pr = "" <;> simp [hpe]
    | some m =>
      simp only [Option.getD]
      by_cases hme : m = ""
      · simp [hme]
      · cases hp : env "PR_NUMBER" with
        | none => simp [hme]
        | some pr => by_cases hpe : pr = "" <;> simp [hme, hpe]
  | some b =>
    cases hm : env "LLM_MODEL" with
    | none =>
      simp only [Option.getD]
      by_cases hbe : b = ""
      · simp [hbe]
      · cases hp : env "PR_NUMBER" with
        | none => simp [hbe]
        | some pr => by_cases hpe : pr = "" <;> simp [hbe, hpe]
    | some m =>
      simp only [Option.getD]
      by_cases hbe : b = ""
      · simp [hbe]
      · by_cases hme : m = ""
        · simp [hbe, hme]
        · cases hp : env "PR_NUMBER" with
          | none => simp [hbe, hme]
          | some pr => by_cases hpe : pr = "" <;> simp [hbe, hme, hpe]

lemma findPlusNum_cons_ne (c : Char) (rest : List Char) (h : c ≠ '+') :
    findPlusNum (c :: rest) = findPlusNum rest := by
  simp [findPlusNum, h]

lemma findPlusNum_append_no_plus (xs ys : List Char) (h : ∀ c ∈ xs, c ≠ '+') :
    findPlusNum (xs ++ ys) = findPlusNum ys := by
  induction xs with
  | nil => rfl
  | cons c rest ih =>
    rw [List.cons_append, findPlusNum_cons_ne c _ (h c (List.mem_cons_self c rest))]
    exact ih fun d hd => h d (List.mem_cons_of_mem c hd)

lemma isDigit_ne_plus (c : Char) (h : c.isDigit = true) : c ≠ '+' := by
  intro hc
  subst hc
  exact absurd h (by decide)

lemma takeDigits_append (ds rest : List Char) (hds : ∀ c ∈ ds, c.isDigit = true)
    (hrest : rest.head?.all (fun c => !c.isDigit) = true) :
    takeDigits (ds ++ rest) = (ds, rest) := by
  induction ds with
  | nil =>
    cases rest with
    | nil => rfl
    | cons r t =>
      have hr : r.isDigit = false := by simpa using hrest
      simp [takeDigits, hr]
  | cons c t ih =>
    have hc := hds c (List.mem_cons_self c t)
    have ih' := ih fun d hd => hds d (List.mem_cons_of_mem c hd)
    simp only [List.cons_append, takeDigits, hc, if_true]
    rw [show t.append rest = t ++ rest from rfl, ih']

lemma findPlusNum_digits (ds rest : List Char) (hne : ds ≠ [])
    (hds : ∀ c ∈ ds, c.isDigit = true)
    (hrest : rest.head?.all (fun c => !c.isDigit) = true) :
    findPlusNum ('+' :: (ds ++ rest)) = some (digitsToNat ds) := by
  simp only [findPlusNum, if_pos rfl]
  rw [takeDigits_append ds rest hds hrest]
  cases ds with
  | nil => exact absurd rfl hne
  | cons c t => rfl

lemma gvlAux_skip_lines (mid : List (List Char)) (t : List (List Char)) :
    ∀ (cur : Int) (acc : Finset Int),
      (∀ m ∈ mid, isHunkHeader m = false ∧ headIs ' ' m = false ∧ headIs '+' m = false) →
      gvlAux (mid ++ t) cur acc = gvlAux t cur acc := by
  induction mid with
  | nil => intro cur acc _; rfl
  | cons m rest ih =>
    intro cur acc h
    obtain ⟨h1, h2, h3⟩ := h m (List.mem_cons_self m rest)
    simp only [List.cons_append, gvlAux, h1, h2, h3, Bool.or_self, if_false,
      Bool.false_eq_true]
    exact ih cur acc fun x hx => h x (List.mem_cons_of_mem m hx)

lemma isHunkHeader_of_headIs_space_or_plus (l : List Char)
    (h : headIs ' ' l = true ∨ headIs '+' l = true) : isHunkHeader l = false := by
  cases l with
  | nil => simp [headIs] at h
  | cons c t =>
    rcases h with h | h <;>
    · have hc : c = _ := of_decide_eq_true h
      subst hc
      rfl

lemma findPlusNum_hunkHeader (as bs cs ds : List Char)
    (ha : ∀ c ∈ as, c.isDigit = true) (hb : ∀ c ∈ bs, c.isDigit = true)
    (hc : cs ≠ []) (hcd : ∀ c ∈ cs, c.isDigit = true) :
    findPlusNum (hunkHeader as bs cs ds) = some (digitsToNat cs) := by
  unfold hunkHeader
  rw [findPlusNum_cons_ne '@' _ (by decide), findPlusNum_cons_ne '@' _ (by decide),
    findPlusNum_cons_ne ' ' _ (by decide), findPlusNum_cons_ne '-' _ (by decide),
    findPlusNum_append_no_plus as _ (fun c hcm => isDigit_ne_plus c (ha c hcm)),
    findPlusNum_cons_ne ',' _ (by decide),
    findPlusNum_append_no_plus bs _ (fun c hcm => isDigit_ne_plus c (hb c hcm)),
    findPlusNum_cons_ne ' ' _ (by decide)]
  exact findPlusNum_digits cs _ hc hcd (by simp)

/-- C5: for every unified-diff hunk header of the form `@@ -a,b +c,d @@` —
the four numbers quantified by their digit strings — and any run of lines
after it that are neither headers nor context/added lines, the first context
or added line is assigned line number `c`, i.e. the scan continues as if that
line had inserted `c` and moved the cursor to `c+1`; and on the spec's
scenario patch the mapper yields exactly the set `{1, 2, 3}`. -/
theorem c5_hunk_header_sets_first_line :
    (∀ (as bs cs ds : List Char) (mid : List (List Char)) (l : List Char)
        (rest : List (List Char)) (cur : Int) (acc : Finset Int),
      (∀ c ∈ as, c.isDigit = true) → (∀ c ∈ bs, c.isDigit = true) →
      cs ≠ [] → (∀ c ∈ cs, c.isDigit = true) →
      (∀ m ∈ mid, isHunkHeader m = false ∧ headIs ' ' m = false ∧ headIs '+' m = false) →
      (headIs ' ' l = true ∨ headIs '+' l = true) →
      gvlAux (hunkHeader as bs cs ds :: (mid ++ l :: rest)) cur acc =
        gvlAux rest ((digitsToNat cs : Int) + 1) (insert (digitsToNat cs : Int) acc)) ∧
    get_valid_lines (some "@@ -1,2 +1,3 @@\n line1\n+line2\n line3") =
      ({1, 2, 3} : Finset Int) := by
  constructor
  · intro as bs cs ds mid l rest cur acc ha hb hc hcd hmid hl
    have hhdr : isHunkHeader (hunkHeader as bs cs ds) = true := rfl
    simp only [gvlAux, hhdr, if_true,
      findPlusNum_hunkHeader as bs cs ds ha hb hc hcd]
    rw [gvlAux_skip_lines mid (l :: rest) _ _ hmid]
    simp only [gvlAux, isHunkHeader_of_headIs_space_or_plus l hl,
      Bool.false_eq_true, if_false]
    have : (headIs ' ' l || headIs '+' l) = true := by
      rcases hl with h | h <;> simp [h]
    simp [this, Int.ofNat_eq_coe]
  · decide

/-- C5 witness: the general part of `c5_hunk_header_sets_first_line` applied
to the header `@@ -1,2 +42,7 @@` followed by a removed line and then the
context line `" x"`, which is assigned line number 42. -/
theorem c5_hunk_header_sets_first_line_witness :
    gvlAux (hunkHeader ['1'] ['2'] ['4', '2'] ['7'] :: ([['-', 'y']] ++ [' ', 'x'] :: [])) 0 ∅ =
      gvlAux [] ((42 : Int) + 1) (insert (42 : Int) ∅) :=
  (c5_hunk_header_sets_first_line.1 ['1'] ['2'] ['4', '2'] ['7'] [['-', 'y']]
    [' ', 'x'] [] 0 ∅ (by decide) (by decide) (by decide) (by decide)
    (by decide) (by decide)).trans (by decide)

/-- C6: every member of the ValidLineSet is the number assigned to a line of
the patch that begins with a space (context) or `+` (added); a removed line
(leading `-`) leaves both the cursor and the set untouched; and an absent or
empty patch yields the empty set. -/
theorem c6_valid_lines_from_context_or_added :
    (∀ (p : String) (n : Int), n ∈ get_valid_lines (some p) →
      ∃ l, (l, n) ∈ taggedLines (splitLines p.data) 0 ∧ l ∈ splitLines p.data ∧
        (headIs ' ' l = true ∨ headIs '+' l = true)) ∧
    (∀ (l : List Char) (rest : List (List Char)) (cur : Int) (acc : Finset Int),
      headIs '-' l = true → gvlAux (l :: rest) cur acc = gvlAux rest cur acc) ∧
    get_valid_lines none = ∅ ∧ get_valid_lines (some "") = ∅ := by
  refine ⟨?_, ?_, rfl, rfl⟩
  · intro p n hn
    unfold get_valid_lines at hn
    by_cases hp : p = ""
    · simp [hp] at hn
    · simp only [hp, if_false] at hn
      rcases (mem_gvlAux _ _ _ _).mp hn with h | ⟨pair, hpair, hpn⟩
      · simp at h
      · obtain ⟨hmem, hca⟩ := taggedLines_context_or_added _ _ pair hpair
        exact ⟨pair.1, by rw [← hpn]; exact hpair, hmem, hca⟩
  · intro l rest cur acc h
    have hl : isHunkHeader l = false := by
      cases l with
      | nil => simp [headIs] at h
      | cons c t =>
        have hcq : c = '-' := of_decide_eq_true h
        subst hcq
        rfl
    have hs : headIs ' ' l = false := by
      cases l with
      | nil => rfl
      | cons c t =>
        have hcq : c = '-' := of_decide_eq_true h
        subst hcq
        rfl
    have hpl : headIs '+' l = false := by
      cases l with
      | nil => rfl
      | cons c t =>
        have hcq : c = '-' := of_decide_eq_true h
        subst hcq
        rfl
    simp [gvlAux, hl, hs, hpl]

/-- C6 witness: applied to the one-line patch `" a"`, whose only member 0 is
assigned to the context line `" a"`. -/
theorem c6_valid_lines_from_context_or_added_witness :
    (0 : Int) ∈ get_valid_lines (some " a") ∧
    ∃ l, (l, (0 : Int)) ∈ taggedLines (splitLines " a".data) 0 ∧
      l ∈ splitLines " a".data ∧ (headIs ' ' l = true ∨ headIs '+' l = true) :=
  ⟨by decide, c6_valid_lines_from_context_or_added.1 " a" 0 (by decide)⟩

lemma string_data_append (a b : String) : (a ++ b).data = a.data ++ b.data := rfl

lemma processItemsE_cons_skip (fname : String) (valid : Finset Int) (item : JsonVal)
    (rest : List JsonVal) (h : processItem fname valid item = .ok none) :
    processItemsE fname valid (item :: rest) = processItemsE fname valid rest := by
  conv_lhs => rw [processItemsE]
  rw [h]

lemma processItemsE_cons_err (fname : String) (valid : Finset Int) (item : JsonVal)
    (rest : List JsonVal) (e : PyExc) (h : processItem fname valid item = .error e) :
    processItemsE fname valid (item :: rest) = ([], some e) := by
  conv_lhs => rw [processItemsE]
  rw [h]

lemma processItem_obj_missing (fname : String) (valid : Finset Int)
    (kvs : List (String × JsonVal))
    (h : pyLookup kvs "line" = none ∨ pyLookup kvs "message" = none) :
    processItem fname valid (.obj kvs) = .ok none := by
  rcases h with h | h
  · simp [processItem, pyContains, h]
  · cases hl : pyLookup kvs "line" with
    | none => simp [processItem, pyContains, hl]
    | some lv => simp [processItem, pyContains, hl, h]

lemma processItem_obj_step (fname : String) (valid : Finset Int)
    (kvs : List (String × JsonVal)) (lv mv : JsonVal)
    (hl : pyLookup kvs "line" = some lv) (hm : pyLookup kvs "message" = some mv) :
    processItem fname valid (.obj kvs) =
      match pyInt lv with
      | .error .valueError => .ok none
      | .error e => .error e
      | .ok n =>
        if n ∈ valid then .ok (some ⟨fname, n, renderBody kvs mv⟩) else .ok none := by
  simp only [processItem, pyContains, pyIndex, pyGetOpt, renderBody, hl, hm,
    Option.isSome_some]

lemma processItem_obj_inv (fname : String) (valid : Finset Int)
    (kvs : List (String × JsonVal)) (c : Comment)
    (h : processItem fname valid (.obj kvs) = .ok (some c)) :
    ∃ lv mv n, pyLookup kvs "line" = some lv ∧ pyLookup kvs "message" = some mv ∧
      pyInt lv = .ok n ∧ n ∈ valid ∧ c = ⟨fname, n, renderBody kvs mv⟩ := by
  cases hl : pyLookup kvs "line" with
  | none => rw [processItem_obj_missing fname valid kvs (Or.inl hl)] at h; simp at h
  | some lv =>
    cases hm : pyLookup kvs "message" with
    | none => rw [processItem_obj_missing fname valid kvs (Or.inr hm)] at h; simp at h
    | some mv =>
      rw [processItem_obj_step fname valid kvs lv mv hl hm] at h
      cases hn : pyInt lv with
      | error e =>
        rw [hn] at h
        cases e <;> simp at h
      | ok n =>
        rw [hn] at h
        by_cases hv : n ∈ valid
        · simp only [hv, if_true] at h
          refine ⟨lv, mv, n, rfl, rfl, hn, hv, ?_⟩
          simpa using h.symm
        · simp [hv] at h

lemma processItem_not_obj_no_comment (fname : String) (valid : Finset Int)
    (item : JsonVal) (c : Comment) (hno : ∀ kvs, item ≠ .obj kvs)
    (h : processItem fname valid item = .ok (some c)) : False := by
  cases item with
  | obj kvs => exact hno kvs rfl
  | null => simp [processItem, pyContains] at h
  | bool b => simp [processItem, pyContains] at h
  | num n => simp [processItem, pyContains] at h
  | str s =>
    unfold processItem at h
    simp only [pyContains, pyIndex] at h
    cases hb : decide ("line".data <:+: s.data) with
    | false => rw [hb] at h; simp at h
    | true =>
      rw [hb] at h
      cases hb2 : decide ("message".data <:+: s.data) with
      | false => rw [hb2] at h; simp at h
      | true => rw [hb2] at h; simp at h
  | arr xs =>
    unfold processItem at h
    simp only [pyContains, pyIndex] at h
    cases hb : xs.any fun v => match v with | .str s => s = "line" | _ => false with
    | false => rw [hb] at h; simp at h
    | true =>
      rw [hb] at h
      cases hb2 : xs.any fun v => match v with | .str s => s = "message" | _ => false with
      | false => rw [hb2] at h; simp at h
      | true => rw [hb2] at h; simp at h

lemma processItem_mem_valid (fname : String) (valid : Finset Int) (item : JsonVal)
    (c : Comment) (h : processItem fname valid item = .ok (some c)) : c.line ∈ valid := by
  cases item with
  | obj kvs =>
    obtain ⟨lv, mv, n, _, _, _, hv, hc⟩ := processItem_obj_inv fname valid kvs c h
    subst hc
    exact hv
  | null => exact absurd h (by simp [processItem, pyContains])
  | bool b => exact absurd h (by simp [processItem, pyContains])
  | num n => exact absurd h (by simp [processItem, pyContains])
  | str s => exact (processItem_not_obj_no_comment fname valid (.str s) c (by intro kvs hk; cases hk) h).elim
  | arr xs => exact (processItem_not_obj_no_comment fname valid (.arr xs) c (by intro kvs hk; cases hk) h).elim

/-- C4: every inline comment the validator loop emits targets a line in the
file's ValidLineSet — a finding whose integer line number is not a member is
dropped and never becomes a comment — and on the spec's scenario
(model output `[{"line": 99, "message": "x"}]` against ValidLineSet
`{1, 2, 3}`) the validator yields zero inline comments. -/
theorem c4_comments_target_valid_lines :
    (∀ (fname : String) (valid : Finset Int) (items : List JsonVal) (c : Comment),
      c ∈ (processItemsE fname valid items).1 → c.line ∈ valid) ∧
    analyzeValidateE "f" "[\x7b\"line\": 99, \"message\": \"x\"\x7d]"
      ({1, 2, 3} : Finset Int) = .ok [] := by
  constructor
  · intro fname valid items
    induction items with
    | nil => intro c hc; simp [processItemsE] at hc
    | cons item rest ih =>
      intro c hc
      unfold processItemsE at hc
      cases hpi : processItem fname valid item with
      | error e => rw [hpi] at hc; simp at hc
      | ok o =>
        cases o with
        | none => rw [hpi] at hc; exact ih c hc
        | some c' =>
          rw [hpi] at hc
          simp only [List.mem_cons] at hc
          rcases hc with rfl | hc
          · exact processItem_mem_valid fname valid item c hpi
          · exact ih c hc
  · rfl

/-- C4 witness: instantiating the membership part at a model output whose
single finding targets line 2 of ValidLineSet `{1, 2, 3}`. -/
theorem c4_comments_target_valid_lines_witness :
    (Comment.mk "f" 2 "### 💡 리뷰 | 🟡 Minor\n\nm") ∈
      (processItemsE "f" ({1, 2, 3} : Finset Int)
        [.obj [("line", .num 2), ("message", .str "m")]]).1 ∧
    (Comment.mk "f" 2 "### 💡 리뷰 | 🟡 Minor\n\nm").line ∈ ({1, 2, 3} : Finset Int) :=
  ⟨by decide, c4_comments_target_valid_lines.1 "f" {1, 2, 3}
    [.obj [("line", .num 2), ("message", .str "m")]]
    (Comment.mk "f" 2 "### 💡 리뷰 | 🟡 Minor\n\nm") (by decide)⟩

/-- C7 counterexample: in the list
`[{"line": null, "message": "x"}, {"line": 1, "message": "y"}]` with
ValidLineSet `{1}`, the first element's `int(None)` raises `TypeError`,
which the inner `except ValueError` does not catch; the loop is aborted and
the second, perfectly valid element is lost — even though that element alone
yields a finding.  So a line field that is not coercible to an integer does
not always leave the other elements processed, refuting the claim as
stated. -/
theorem c7_counterexample_type_error_aborts_rest :
    processItemsE "f" ({1} : Finset Int)
        [.obj [("line", .null), ("message", .str "x")],
          .obj [("line", .num 1), ("message", .str "y")]] = ([], some .typeError) ∧
    (processItemsE "f" ({1} : Finset Int)
        [.obj [("line", .num 1), ("message", .str "y")]]).1 ≠ [] := by
  exact ⟨rfl, by decide⟩

/-- C7 amended: isolation holds for the failure modes the loop actually
absorbs — an element missing its line or message field is skipped with the
rest still processed, and so is an element whose line field is a string that
does not parse as an integer (`ValueError`, caught by the inner handler);
but an element whose line field has a non-coercible type (`None`, list,
dict: `TypeError`) aborts the loop, dropping all later elements and keeping
only the comments accumulated before it. -/
theorem c7_per_element_isolation_amended :
    (∀ (fname : String) (valid : Finset Int) (kvs : List (String × JsonVal))
        (rest : List JsonVal),
      (pyLookup kvs "line" = none ∨ pyLookup kvs "message" = none) →
      processItemsE fname valid (.obj kvs :: rest) = processItemsE fname valid rest) ∧
    (∀ (fname : String) (valid : Finset Int) (kvs : List (String × JsonVal))
        (rest : List JsonVal) (s : String) (mv : JsonVal),
      pyLookup kvs "line" = some (.str s) → pyLookup kvs "message" = some mv →
      parsePyIntStr s = none →
      processItemsE fname valid (.obj kvs :: rest) = processItemsE fname valid rest) ∧
    (∀ (fname : String) (valid : Finset Int) (kvs : List (String × JsonVal))
        (rest : List JsonVal) (lv mv : JsonVal),
      pyLookup kvs "line" = some lv → pyLookup kvs "message" = some mv →
      pyInt lv = .error .typeError →
      processItemsE fname valid (.obj kvs :: rest) = ([], some .typeError)) := by
  refine ⟨?_, ?_, ?_⟩
  · intro fname valid kvs rest h
    exact processItemsE_cons_skip fname valid _ rest (processItem_obj_missing fname valid kvs h)
  · intro fname valid kvs rest s mv hl hm hp
    refine processItemsE_cons_skip fname valid _ rest ?_
    rw [processItem_obj_step fname valid kvs (.str s) mv hl hm]
    simp [pyInt, hp]
  · intro fname valid kvs rest lv mv hl hm ht
    refine processItemsE_cons_err fname valid _ rest _ ?_
    rw [processItem_obj_step fname valid kvs lv mv hl hm, ht]

/-- C7 witness: the three amended cases at concrete inputs — a missing line
field, a line field `"abc"`, and a line field `null` followed by a further
element that is consequently dropped. -/
theorem c7_per_element_isolation_amended_witness :
    processItemsE "f" ({1} : Finset Int) [.obj [("message", .str "x")]] =
      processItemsE "f" ({1} : Finset Int) [] ∧
    processItemsE "f" ({1} : Finset Int)
        [.obj [("line", .str "abc"), ("message", .str "x")]] =
      processItemsE "f" ({1} : Finset Int) [] ∧
    processItemsE "f" ({1} : Finset Int)
        [.obj [("line", .null), ("message", .str "x")], .obj []] =
      ([], some .typeError) :=
  ⟨c7_per_element_isolation_amended.1 "f" {1} [("message", .str "x")] []
      (Or.inl rfl),
    c7_per_element_isolation_amended.2.1 "f" {1}
      [("line", .str "abc"), ("message", .str "x")] [] "abc" (.str "x") rfl rfl rfl,
    c7_per_element_isolation_amended.2.2 "f" {1}
      [("line", .null), ("message", .str "x")] [.obj []] .null (.str "x") rfl rfl rfl⟩

/-- C8 counterexample: a surviving element with the unrecognized severity
`"Blocker"` is rendered with `"Blocker"` verbatim in the comment body — not
coerced to `minor` (and `info` is not a recognized value anywhere in the
code); likewise an unrecognized category string (`"엉뚱"`) is preserved
verbatim rather than replaced by the review default.  This refutes the
claimed coercion to the closed severity/category sets. -/
theorem c8_counterexample_severity_not_coerced :
    processItem "f" ({1} : Finset Int)
        (.obj [("line", .num 1), ("message", .str "m"), ("severity", .str "Blocker")]) =
      .ok (some ⟨"f", 1, "### 💡 리뷰 | 🟡 Blocker\n\nm"⟩) ∧
    processItem "f" ({1} : Finset Int)
        (.obj [("line", .num 1), ("message", .str "m"), ("category", .str "엉뚱")]) =
      .ok (some ⟨"f", 1, "### 💡 엉뚱 | 🟡 Minor\n\nm"⟩) := by
  exact ⟨rfl, rfl⟩

/-- C8 amended: for every surviving element, the severity value defaults to
`Minor` only when the field is absent, and a present severity string —
recognized or not — is rendered verbatim inside the comment body; the
category value defaults to the review label `리뷰` only when absent, and a
present category string is rendered verbatim whether or not it is one of the
recognized values. -/
theorem c8_severity_category_rendering_amended
    (fname : String) (valid : Finset Int) (kvs : List (String × JsonVal)) (c : Comment)
    (h : processItem fname valid (.obj kvs) = .ok (some c)) :
    (∀ sv, pyLookup kvs "severity" = some (.str sv) →
      ∃ p q, c.body.data = p ++ sv.data ++ q) ∧
    (pyLookup kvs "severity" = none → ∃ p q, c.body.data = p ++ "Minor".data ++ q) ∧
    (∀ cv, pyLookup kvs "category" = some (.str cv) →
      ∃ p q, c.body.data = p ++ cv.data ++ q) ∧
    (pyLookup kvs "category" = none → ∃ p q, c.body.data = p ++ "리뷰".data ++ q) := by
  obtain ⟨lv, mv, n, hl, hm, hn, hv, hc⟩ := processItem_obj_inv fname valid kvs c h
  subst hc
  refine ⟨?_, ?_, ?_, ?_⟩
  · intro sv hs
    refine ⟨("### " ++
      (match pyLookup kvs "category" with
        | some (.str s) => if s = "이슈" then "⚠️" else "💡"
        | _ => "💡") ++ " " ++
      pyToStr ((pyLookup kvs "category").getD (.str "리뷰")) ++ " | " ++
      (if sv = "Critical" then "🔥" else if sv = "Major" then "🔴" else "🟡") ++
      " ").data, ("\n\n" ++ pyToStr mv).data, ?_⟩
    simp [renderBody, hs, pyToStr, string_data_append]
  · intro hs
    refine ⟨("### " ++
      (match pyLookup kvs "category" with
        | some (.str s) => if s = "이슈" then "⚠️" else "💡"
        | _ => "💡") ++ " " ++
      pyToStr ((pyLookup kvs "category").getD (.str "리뷰")) ++ " | " ++ "🟡" ++
      " ").data, ("\n\n" ++ pyToStr mv).data, ?_⟩
    simp [renderBody, hs, pyToStr, string_data_append]
  · intro cv hs
    refine ⟨("### " ++ (if cv = "이슈" then "⚠️" else "💡") ++ " ").data,
      (" | " ++
        (match (pyLookup kvs "severity").getD (.str "Minor") with
          | .str s => if s = "Critical" then "🔥" else if s = "Major" then "🔴" else "🟡"
          | _ => "🟡") ++ " " ++
        pyToStr ((pyLookup kvs "severity").getD (.str "Minor")) ++ "\n\n" ++
        pyToStr mv).data, ?_⟩
    simp [renderBody, hs, pyToStr, string_data_append]
  · intro hs
    refine ⟨("### " ++ "💡" ++ " ").data,
      (" | " ++
        (match (pyLookup kvs "severity").getD (.str "Minor") with
          | .str s => if s = "Critical" then "🔥" else if s = "Major" then "🔴" else "🟡"
          | _ => "🟡") ++ " " ++
        pyToStr ((pyLookup kvs "severity").getD (.str "Minor")) ++ "\n\n" ++
        pyToStr mv).data, ?_⟩
    simp [renderBody, hs, pyToStr, string_data_append]

/-- C8 witness: the amended rendering applied to a surviving element with
severity `"Blocker"`: the unrecognized string appears verbatim in the body. -/
theorem c8_severity_category_rendering_amended_witness :
    ∃ p q, ("### 💡 리뷰 | 🟡 Blocker\n\nm" : String).data = p ++ "Blocker".data ++ q :=
  (c8_severity_category_rendering_amended "f" {1}
      [("line", .num 1), ("message", .str "m"), ("severity", .str "Blocker")]
      ⟨"f", 1, "### 💡 리뷰 | 🟡 Blocker\n\nm"⟩ (by exact rfl)).1 "Blocker" rfl

lemma processItemsE_cons_some (fname : String) (valid : Finset Int) (item : JsonVal)
    (rest : List JsonVal) (c : Comment) (h : processItem fname valid item = .ok (some c)) :
    processItemsE fname valid (item :: rest) =
      (c :: (processItemsE fname valid rest).1, (processItemsE fname valid rest).2) := by
  conv_lhs => rw [processItemsE]
  rw [h]

lemma pyInt_not_systemExit (lv : JsonVal) : pyInt lv ≠ .error .systemExit := by
  cases lv with
  | str s =>
    unfold pyInt
    cases hp : parsePyIntStr s with
    | none => simp [hp]
    | some n => simp [hp]
  | null => simp [pyInt]
  | bool b => simp [pyInt]
  | num n => simp [pyInt]
  | arr xs => simp [pyInt]
  | obj kvs => simp [pyInt]

lemma processItem_not_obj_cases (fname : String) (valid : Finset Int) (item : JsonVal)
    (hno : ∀ kvs, item ≠ .obj kvs) :
    processItem fname valid item = .ok none ∨
      processItem fname valid item = .error .typeError := by
  cases item with
  | obj kvs => exact absurd rfl (hno kvs)
  | null => exact Or.inr rfl
  | bool b => exact Or.inr rfl
  | num n => exact Or.inr rfl
  | str s =>
    unfold processItem
    simp only [pyContains, pyIndex]
    cases hb : decide ("line".data <:+: s.data) with
    | false => exact Or.inl rfl
    | true =>
      cases hb2 : decide ("message".data <:+: s.data) with
      | false => exact Or.inl rfl
      | true => exact Or.inr rfl
  | arr xs =>
    unfold processItem
    simp only [pyContains, pyIndex]
    cases hb : xs.any fun v => match v with | .str s => s = "line" | _ => false with
    | false => exact Or.inl rfl
    | true =>
      cases hb2 : xs.any fun v => match v with | .str s => s = "message" | _ => false with
      | false => exact Or.inl rfl
      | true => exact Or.inr rfl

lemma processItem_error_class (fname : String) (valid : Finset Int) (item : JsonVal)
    (e : PyExc) (h : processItem fname valid item = .error e) :
    e.isExceptionClass = true := by
  cases item with
  | obj kvs =>
    cases hl : pyLookup kvs "line" with
    | none =>
      rw [processItem_obj_missing fname valid kvs (Or.inl hl)] at h
      exact Except.noConfusion h
    | some lv =>
      cases hm : pyLookup kvs "message" with
      | none =>
        rw [processItem_obj_missing fname valid kvs (Or.inr hm)] at h
        exact Except.noConfusion h
      | some mv =>
        rw [processItem_obj_step fname valid kvs lv mv hl hm] at h
        cases hn : pyInt lv with
        | ok n =>
          rw [hn] at h
          by_cases hv : n ∈ valid <;> simp [hv] at h
        | error e' =>
          rw [hn] at h
          cases e' with
          | valueError => exact Except.noConfusion h
          | systemExit => exact absurd hn (pyInt_not_systemExit lv)
          | jsonDecodeError => obtain rfl := Except.error.inj h; rfl
          | typeError => obtain rfl := Except.error.inj h; rfl
          | keyError => obtain rfl := Except.error.inj h; rfl
  | null =>
    obtain rfl := Except.error.inj h
    rfl
  | bool b =>
    obtain rfl := Except.error.inj h
    rfl
  | num n =>
    obtain rfl := Except.error.inj h
    rfl
  | str s =>
    rcases processItem_not_obj_cases fname valid (.str s)
        (fun kvs hk => JsonVal.noConfusion hk) with hc | hc
    · rw [hc] at h; exact Except.noConfusion h
    · rw [hc] at h
      obtain rfl := Except.error.inj h
      rfl
  | arr xs =>
    rcases processItem_not_obj_cases fname valid (.arr xs)
        (fun kvs hk => JsonVal.noConfusion hk) with hc | hc
    · rw [hc] at h; exact Except.noConfusion h
    · rw [hc] at h
      obtain rfl := Except.error.inj h
      rfl

lemma processItemsE_exc_class (fname : String) (valid : Finset Int) :
    ∀ (items : List JsonVal) (e : PyExc),
      (processItemsE fname valid items).2 = some e → e.isExceptionClass = true := by
  intro items
  induction items with
  | nil => intro e h; simp [processItemsE] at h
  | cons item rest ih =>
    intro e h
    cases hpi : processItem fname valid item with
    | error e' =>
      rw [processItemsE_cons_err fname valid item rest e' hpi] at h
      obtain rfl := Option.some.inj h
      exact processItem_error_class fname valid item _ hpi
    | ok o =>
      cases o with
      | none =>
        rw [processItemsE_cons_skip fname valid item rest hpi] at h
        exact ih e h
      | some c =>
        rw [processItemsE_cons_some fname valid item rest c hpi] at h
        exact ih e h

lemma pyIterTop_error (d : JsonVal) (e : PyExc) (h : pyIterTop d = .error e) :
    e = .typeError := by
  cases d with
  | null => exact (Except.error.inj h).symm
  | bool b => exact (Except.error.inj h).symm
  | num n => exact (Except.error.inj h).symm
  | str s => exact Except.noConfusion h
  | arr xs => exact Except.noConfusion h
  | obj kvs => exact Except.noConfusion h

lemma pyExcHandlers_ok (e : PyExc) (acc : List Comment)
    (h : e.isExceptionClass = true) : pyExcHandlers e acc = .ok acc := by
  cases e <;> simp_all [pyExcHandlers, PyExc.isExceptionClass]

lemma loadsE_error (s : String) (e : PyExc) (h : loadsE s = .error e) :
    e = .jsonDecodeError := by
  unfold loadsE at h
  cases hjp : jsonLoads s with
  | none => rw [hjp] at h; exact (Except.error.inj h).symm
  | some v => rw [hjp] at h; exact Except.noConfusion h

/-- C3: the parse-and-validate section of the File Review Task is total — for
every raw model output text and every ValidLineSet no exception escapes its
boundary, the result always being a (possibly empty) list of comments — and
whenever the cleaned text parses to a bare JSON object, the result is that of
validating the single-element list containing it. -/
theorem c3_validator_total (fname text : String) (valid : Finset Int) :
    (∃ l, analyzeValidateE fname text valid = .ok l) ∧
    (∀ kvs, loadsE (clean_json_text text) = .ok (.obj kvs) →
      analyzeValidateE fname text valid = .ok (processItemsE fname valid [.obj kvs]).1) := by
  constructor
  · unfold analyzeValidateE
    split
    next e heq =>
      obtain rfl := loadsE_error _ e heq
      exact ⟨[], rfl⟩
    next data heq =>
      dsimp only
      split
      next e heq2 =>
        obtain rfl := pyIterTop_error _ e heq2
        exact ⟨[], rfl⟩
      next items heq2 =>
        split
        next acc heq3 => exact ⟨acc, rfl⟩
        next acc e heq3 =>
          exact ⟨acc, pyExcHandlers_ok e acc
            (processItemsE_exc_class fname valid items e (by rw [heq3]))⟩
  · intro kvs hk
    unfold analyzeValidateE
    rw [hk]
    dsimp only
    split
    next e2 heq2 => exact absurd heq2 (by simp [pyIterTop])
    next items heq2 =>
      have hitems : items = [.obj kvs] := by
        have hred : pyIterTop (JsonVal.arr [.obj kvs]) = .ok [.obj kvs] := rfl
        rw [hred] at heq2
        exact (Except.ok.inj heq2).symm
      subst hitems
      split
      next acc heq => rw [heq]
      next acc e heq =>
        rw [heq]
        exact pyExcHandlers_ok e acc
          (processItemsE_exc_class fname valid [.obj kvs] e (by rw [heq]))

/-- C3 witness: the bare-object conjunct at the concrete model output
`{"line": 1, "message": "m"}`, which is treated as the one-element list. -/
theorem c3_validator_total_witness :
    analyzeValidateE "f" "\x7b\"line\": 1, \"message\": \"m\"\x7d" ({1} : Finset Int) =
      .ok (processItemsE "f" ({1} : Finset Int)
        [.obj [("line", .num 1), ("message", .str "m")]]).1 :=
  (c3_validator_total "f" "\x7b\"line\": 1, \"message\": \"m\"\x7d" {1}).2
    [("line", .num 1), ("message", .str "m")] (by exact rfl)

lemma string_ne_empty_of_append (s t : String) (h : t ≠ "") : s ++ t ≠ "" := by
  intro heq
  apply h
  have hd := congrArg String.data heq
  rw [string_data_append] at hd
  have ht : t.data = [] := (List.append_eq_nil.mp hd).2
  cases t with
  | mk d =>
    cases ht
    rfl

/-- C10: a file that reaches the model but gets no usable answer (the model
collaborator returned `None` or empty text) yields zero findings *with* its
patch, so it still feeds the diff-context buffer — making the summarize
stage's trigger non-empty — whereas a skipped file (removed status, absent
patch, or ignored extension) yields zero findings and no patch and leaves
the buffer unchanged. -/
theorem c10_failed_model_call_keeps_patch :
    (∀ (file : ChangedFile) (p : String) (response : Option String) (ctx : String),
      file.status ≠ "removed" → file.patch = some p → p ≠ "" →
      isIgnoredFile file = false → (response = none ∨ response = some "") →
      analyzeFile file response = .ok ([], some p) ∧
      collectContext ctx file ([], some p) ≠ "") ∧
    (∀ (file : ChangedFile) (response : Option String) (ctx : String),
      file.status = "removed" ∨ file.patch = none ∨ isIgnoredFile file = true →
      analyzeFile file response = .ok ([], none) ∧
      collectContext ctx file ([], none) = ctx) := by
  constructor
  · intro file p response ctx hst hp hpne hig hr
    constructor
    · rcases hr with rfl | rfl <;> simp [analyzeFile, hp, hst, hig]
    · unfold collectContext
      dsimp only
      by_cases hlen : ctx.length < 30000
      · rw [if_pos ⟨hpne, hlen⟩]
        exact string_ne_empty_of_append _ p hpne
      · rw [if_neg fun hc => hlen hc.2]
        intro hctx
        subst hctx
        exact hlen (by decide)
  · intro file response ctx h
    refine ⟨?_, rfl⟩
    rcases h with h | h | h
    · simp [analyzeFile, h]
    · simp [analyzeFile, h]
    · by_cases h1 : file.status = "removed" ∨ file.patch = none
      · simp [analyzeFile, h1]
      · simp [analyzeFile, h1, h]

/-- C10 witness: a modified Python file whose model call failed keeps its
patch and makes the diff-context buffer non-empty, while an ignored-extension
file contributes neither findings nor patch. -/
theorem c10_failed_model_call_keeps_patch_witness :
    analyzeFile ⟨"a.py", "modified", some "@@ -1 +1 @@\n+x"⟩ none =
      .ok ([], some "@@ -1 +1 @@\n+x") ∧
    collectContext "" ⟨"a.py", "modified", some "@@ -1 +1 @@\n+x"⟩
      ([], some "@@ -1 +1 @@\n+x") ≠ "" ∧
    analyzeFile ⟨"img.png", "modified", some "@@ -1 +1 @@\n+x"⟩ none = .ok ([], none) :=
  ⟨(c10_failed_model_call_keeps_patch.1 ⟨"a.py", "modified", some "@@ -1 +1 @@\n+x"⟩
      "@@ -1 +1 @@\n+x" none "" (by decide) rfl (by decide) (by decide) (Or.inl rfl)).1,
    (c10_failed_model_call_keeps_patch.1 ⟨"a.py", "modified", some "@@ -1 +1 @@\n+x"⟩
      "@@ -1 +1 @@\n+x" none "" (by decide) rfl (by decide) (by decide) (Or.inl rfl)).2,
    (c10_failed_model_call_keeps_patch.2 ⟨"img.png", "modified", some "@@ -1 +1 @@\n+x"⟩
      none "" (Or.inr (Or.inr (by decide)))).1⟩

end AiReviewer
